import Mathlib

/-!
# A verification development for the gostore key-value server

This file gives a shallow embedding, in Lean, of the core of the gostore
repository: the RESP-like wire codec (resp.go), the command handlers over the
two in-memory maps (handler.go), the append-only-file replay loop (aof.go) and
the per-request dispatch loop of main. Byte streams are modelled as lists of
naturals (one per byte), Go strings as byte lists, and the Go maps as
association lists. Fallible operations return an explicit error value; the
runtime panic that Go raises for a negative slice length is modelled as a
distinguished error result.

Theorems at the end of the file settle the specification claims about this
code.
-/

namespace GoStore

/-- A Go byte, modelled as a natural number (0 ≤ b < 256 on every byte that
actually flows through the program; nothing below depends on the bound). -/
abbrev Byte := Nat

/-- A Go string: a sequence of bytes. -/
abbrev GoStr := List Nat

/-- Bytes of an ASCII string literal, for writing concrete Go strings. -/
def gostr (s : String) : GoStr := s.data.map Char.toNat

/-- The Value struct of resp.go: a type tag together with one field per
variant. Go zero-initialises every field, so a decoded or hand-built value
carries all five fields, with the inactive ones at their zero values. -/
inductive Value where
  | mk (typ : String) (str : GoStr) (num : Int) (bulk : GoStr) (array : List Value)

/-- Field accessor for Value.typ. -/
def Value.typ : Value → String
  | .mk t _ _ _ _ => t

/-- Field accessor for Value.str. -/
def Value.str : Value → GoStr
  | .mk _ s _ _ _ => s

/-- Field accessor for Value.num. -/
def Value.num : Value → Int
  | .mk _ _ n _ _ => n

/-- Field accessor for Value.bulk. -/
def Value.bulk : Value → GoStr
  | .mk _ _ _ b _ => b

/-- Field accessor for Value.array. -/
def Value.array : Value → List Value
  | .mk _ _ _ _ a => a

/-- The zero Value, written Value{} in Go. -/
def Value.zero : Value := .mk "" [] 0 [] []

/-- Value{typ: "string", str: s}. -/
def Value.mkString (s : GoStr) : Value := .mk "string" s 0 [] []

/-- Value{typ: "error", str: s}. -/
def Value.mkError (s : GoStr) : Value := .mk "error" s 0 [] []

/-- Value{typ: "bulk", bulk: b}. -/
def Value.mkBulk (b : GoStr) : Value := .mk "bulk" [] 0 b []

/-- Value{typ: "null"}. -/
def Value.mkNull : Value := .mk "null" [] 0 [] []

/-- Value{typ: "array", array: l}. -/
def Value.mkArray (l : List Value) : Value := .mk "array" [] 0 [] l

/-! ## Decimal integers on the wire

strconv.Itoa and strconv.ParseInt, restricted to what the program uses:
base-10, 64-bit. -/

/-- The decimal digit bytes of a natural number, most significant first;
the byte-level content of strconv.Itoa for a non-negative int. -/
def natDigs (n : Nat) : List Nat :=
  if n < 10 then [48 + n]
  else natDigs (n / 10) ++ [48 + n % 10]
decreasing_by exact Nat.div_lt_self (by omega) (by omega)

/-- Digit-folding loop of decimal parsing: consume digit bytes, fail on any
non-digit byte. -/
def parseDigitsAux : Nat → List Nat → Option Nat
  | acc, [] => some acc
  | acc, b :: rest =>
      if 48 ≤ b ∧ b ≤ 57 then parseDigitsAux (acc * 10 + (b - 48)) rest
      else none

/-- Parse an unsigned decimal: non-empty run of digit bytes. -/
def parseDigits (l : List Nat) : Option Nat :=
  match l with
  | [] => none
  | _ :: _ => parseDigitsAux 0 l

/-- strconv.ParseInt(s, 10, 64): optional sign, non-empty digit run, and an
error when the value does not fit in a signed 64-bit integer. -/
def parseGoInt (l : List Nat) : Option Int :=
  match l with
  | [] => none
  | c :: rest =>
      if c = 45 then
        (parseDigits rest).bind fun n =>
          if n ≤ 9223372036854775808 then some (-(n : Int)) else none
      else if c = 43 then
        (parseDigits rest).bind fun n =>
          if n ≤ 9223372036854775807 then some ((n : Int)) else none
      else
        (parseDigits (c :: rest)).bind fun n =>
          if n ≤ 9223372036854775807 then some ((n : Int)) else none

/-! ## The decoder (rESP) -/

/-- Decoder and replay failure modes. eof models io.EOF from the byte
source; parseErr models the strconv.ParseInt error surfaced by readInteger;
negLen models the runtime panic of make with a negative length in readBulk;
idxOut models the index-out-of-range panic of the replay callback on an
empty array; fuel is the recursion budget of the embedding and is never
reached on the inputs the theorems below consider. -/
inductive RErr where
  | eof
  | parseErr
  | negLen
  | idxOut
  | fuel
deriving DecidableEq

/-- Loop body of rESP.readLine: bytes are appended one at a time to line, and
the loop exits as soon as the byte before the last one appended is CR (13).
Returns none at end of input (io.EOF), in which case everything was consumed;
otherwise returns the line with its last two bytes stripped, and the rest of
the stream. -/
def readLineAux : List Nat → List Nat → (Option (List Nat)) × List Nat
  | _, [] => (none, [])
  | line, b :: rest =>
      if line.getLast? = some 13 then (some line.dropLast, rest)
      else readLineAux (line ++ [b]) rest

/-- rESP.readLine on a byte stream. -/
def readLine (s : List Nat) : (Option (List Nat)) × List Nat :=
  readLineAux [] s

/-- rESP.readInteger: read a line and parse it as a base-10 64-bit integer. -/
def readInteger (s : List Nat) : (Except RErr Int) × List Nat :=
  match readLine s with
  | (none, rest) => (.error .eof, rest)
  | (some line, rest) =>
      match parseGoInt line with
      | none => (.error .parseErr, rest)
      | some n => (.ok n, rest)

/-- rESP.readBulk: read the length line; a negative length makes Go panic in
make([]byte, len), modelled as the negLen error; otherwise take exactly len
payload bytes (zero-padded if the source runs short, as the ignored short
read of bufio leaves the slice zeroed), then consume one line for the
trailing CRLF, ignoring its result. -/
def readBulk (s : List Nat) : (Except RErr Value) × List Nat :=
  match readInteger s with
  | (.error e, rest) => (.error e, rest)
  | (.ok n, rest) =>
      if n < 0 then (.error .negLen, rest)
      else
        let len := n.toNat
        let payload := rest.take len ++ List.replicate (len - rest.length) 0
        let rest2 := (readLine (rest.drop len)).2
        (.ok (Value.mkBulk payload), rest2)

/-- Element loop of rESP.readArray: decode exactly k further values with the
given value reader, appending each to acc; the loop does not run at all when
the parsed count was non-positive. -/
def loopElems (rv : List Nat → (Except RErr Value) × List Nat) :
    Nat → List Value → List Nat → (Except RErr Value) × List Nat
  | 0, acc, s => (.ok (Value.mkArray acc), s)
  | k + 1, acc, s =>
      match rv s with
      | (.error e, rest) => (.error e, rest)
      | (.ok v, rest) => loopElems rv k (acc ++ [v]) rest

/-- rESP.readArray: read the length line, then run the element loop. A
negative length gives toNat zero, so the loop body never runs. -/
def readArrayF (rv : List Nat → (Except RErr Value) × List Nat)
    (s : List Nat) : (Except RErr Value) × List Nat :=
  match readInteger s with
  | (.error e, rest) => (.error e, rest)
  | (.ok n, rest) => loopElems rv n.toNat [] rest

/-- One step of rESP.Read: read the type marker byte and dispatch. On any
marker other than ARRAY (42) and BULK (36) the Go code prints a message and
returns (Value{}, nil): a successful result carrying the zero Value. -/
def readF (rv : List Nat → (Except RErr Value) × List Nat)
    (s : List Nat) : (Except RErr Value) × List Nat :=
  match s with
  | [] => (.error .eof, [])
  | t :: rest =>
      if t = 42 then readArrayF rv rest
      else if t = 36 then readBulk rest
      else (.ok Value.zero, rest)

/-- rESP.Read with an explicit recursion budget: level fuel + 1 may decode
arrays whose elements are decoded at level fuel. -/
def readVal : Nat → List Nat → (Except RErr Value) × List Nat
  | 0 => fun s => (.error .fuel, s)
  | fuel + 1 => readF (readVal fuel)

/-- rESP.Read on a byte stream: one byte of stream per level of budget is
always enough, since every decoding step consumes the marker byte first. -/
def Read (s : List Nat) : (Except RErr Value) × List Nat :=
  readVal (s.length + 1) s

/-! ## The encoder (Value.Marshal) -/

mutual

/-- Value.Marshal: switch on the type tag. The branches are, in source
order: marshalArray, marshalBulk, marshalString, marshallNull,
marshallError, and the default empty byte slice. Marker bytes: ARRAY 42,
BULK 36, STRING 43, ERROR 45; CRLF is 13, 10. -/
def Marshal : Value → List Nat
  | .mk t str _ bulk arr =>
    if t = "array" then 42 :: natDigs arr.length ++ [13, 10] ++ marshalElems arr
    else if t = "bulk" then 36 :: natDigs bulk.length ++ [13, 10] ++ bulk ++ [13, 10]
    else if t = "string" then 43 :: str ++ [13, 10]
    else if t = "null" then [36, 45, 49, 13, 10]
    else if t = "error" then 45 :: str ++ [13, 10]
    else []

/-- The element loop of marshalArray: each element is marshalled in order
and the encodings are concatenated. -/
def marshalElems : List Value → List Nat
  | [] => []
  | v :: vs => Marshal v ++ marshalElems vs

end

/-! ## The store and the handlers (handler.go) -/

/-- Lookup in a Go map modelled as an association list. -/
def alGet {α β : Type} [DecidableEq α] : List (α × β) → α → Option β
  | [], _ => none
  | (k, v) :: rest, k2 => if k = k2 then some v else alGet rest k2

/-- Insertion into a Go map modelled as an association list: replace in
place when the key is present, append otherwise. -/
def alSet {α β : Type} [DecidableEq α] : List (α × β) → α → β → List (α × β)
  | [], k, v => [(k, v)]
  | (k1, v1) :: rest, k, v =>
      if k1 = k then (k, v) :: rest else (k1, v1) :: alSet rest k v

/-- The two global maps of handler.go: SETs (flat string map) and HSETs
(hash map). -/
structure Store where
  sets : List (GoStr × GoStr)
  hsets : List (GoStr × List (GoStr × GoStr))
deriving DecidableEq

/-- The empty store the process starts from. -/
def Store.empty : Store := ⟨[], []⟩

/-- The wrong-number-of-arguments message the handlers build, with the
single-quote byte (39) around the command name. -/
def wrongArgsMsg (cmd : String) : GoStr :=
  gostr "ERR wrong number of arguments for " ++ [39] ++ gostr cmd ++ [39] ++
    gostr " command"

/-- Handler ping: with no arguments answer the simple string PONG, else echo
the first bulk argument as a simple string. -/
def ping (args : List Value) : Value :=
  if args.length = 0 then Value.mkString (gostr "PONG")
  else Value.mkString (args.headD Value.zero).bulk

/-- Handler set: exactly two arguments or an error; otherwise upsert into
the flat map and answer OK. -/
def set (st : Store) (args : List Value) : Store × Value :=
  if args.length ≠ 2 then (st, Value.mkError (wrongArgsMsg "set"))
  else
    let key := (args.getD 0 Value.zero).bulk
    let value := (args.getD 1 Value.zero).bulk
    ({ st with sets := alSet st.sets key value }, Value.mkString (gostr "OK"))

/-- Handler get: exactly one argument or an error; a missing key answers the
null value, a present key its bulk string. Never mutates. -/
def get (st : Store) (args : List Value) : Store × Value :=
  if args.length ≠ 1 then (st, Value.mkError (wrongArgsMsg "get"))
  else
    match alGet st.sets (args.getD 0 Value.zero).bulk with
    | none => (st, Value.mkNull)
    | some v => (st, Value.mkBulk v)

/-- Handler hset: exactly three arguments or an error; the hash is created
lazily when absent, then the field is upserted; answers OK. -/
def hset (st : Store) (args : List Value) : Store × Value :=
  if args.length ≠ 3 then (st, Value.mkError (wrongArgsMsg "hset"))
  else
    let hash := (args.getD 0 Value.zero).bulk
    let key := (args.getD 1 Value.zero).bulk
    let value := (args.getD 2 Value.zero).bulk
    let inner := (alGet st.hsets hash).getD []
    ({ st with hsets := alSet st.hsets hash (alSet inner key value) },
      Value.mkString (gostr "OK"))

/-- Handler hget: exactly two arguments or an error; a missing hash or field
answers the null value (a lookup in a nil Go map yields the zero value and
ok = false). Never mutates. -/
def hget (st : Store) (args : List Value) : Store × Value :=
  if args.length ≠ 2 then (st, Value.mkError (wrongArgsMsg "hget"))
  else
    let hash := (args.getD 0 Value.zero).bulk
    let key := (args.getD 1 Value.zero).bulk
    match alGet ((alGet st.hsets hash).getD []) key with
    | none => (st, Value.mkNull)
    | some v => (st, Value.mkBulk v)

/-- The field/value flattening loop of hgetall: each stored pair contributes
its field bulk string immediately followed by its value bulk string. -/
def flattenPairs : List (GoStr × GoStr) → List Value
  | [] => []
  | (k, v) :: rest => Value.mkBulk k :: Value.mkBulk v :: flattenPairs rest

/-- Handler hgetall: exactly one argument or an error; a missing hash
answers the null value, a present one the array of its flattened pairs. -/
def hgetall (st : Store) (args : List Value) : Store × Value :=
  if args.length ≠ 1 then (st, Value.mkError (wrongArgsMsg "hgetall"))
  else
    match alGet st.hsets (args.getD 0 Value.zero).bulk with
    | none => (st, Value.mkNull)
    | some inner => (st, Value.mkArray (flattenPairs inner))

/-! ## Dispatch (the Handlers map and the main loop) -/

/-- strings.ToUpper on one byte, for the ASCII range the commands use. -/
def toUpperByte (b : Nat) : Nat := if 97 ≤ b ∧ b ≤ 122 then b - 32 else b

/-- strings.ToUpper on a Go string. -/
def toUpper (s : GoStr) : GoStr := s.map toUpperByte

/-- Membership of a command name in the Handlers map of handler.go. -/
def knownCommand (c : GoStr) : Bool :=
  c == gostr "PING" || c == gostr "SET" || c == gostr "GET" ||
    c == gostr "HSET" || c == gostr "HGET" || c == gostr "HGETALL"

/-- The handler drawn from the Handlers map, as a transformer of the global
store. Only called on names for which knownCommand holds; the final branch
is unreachable then. -/
def runHandler (c : GoStr) (st : Store) (args : List Value) : Store × Value :=
  if c = gostr "PING" then (st, ping args)
  else if c = gostr "SET" then set st args
  else if c = gostr "GET" then get st args
  else if c = gostr "HSET" then hset st args
  else if c = gostr "HGET" then hget st args
  else if c = gostr "HGETALL" then hgetall st args
  else (st, Value.zero)

/-- The mutable world of the main loop: the two in-memory maps and the bytes
appended so far to the append-only file. -/
structure SrvState where
  store : Store
  log : List Nat
deriving DecidableEq

/-- One iteration of the request loop in main, given one decoded request
value: reject non-arrays and empty arrays without responding; answer an
empty simple string for a command missing from Handlers; otherwise append
the marshalled request to the AOF first when the command is SET or HSET,
then run the handler and respond with its result. The second component is
the value written back to the client, if any. -/
def liveStep (ss : SrvState) (v : Value) : SrvState × Option Value :=
  if v.typ ≠ "array" then (ss, none)
  else if v.array.length = 0 then (ss, none)
  else
    let command := toUpper (v.array.headD Value.zero).bulk
    let args := v.array.drop 1
    if knownCommand command then
      let ss1 : SrvState :=
        if command = gostr "SET" ∨ command = gostr "HSET" then
          { ss with log := ss.log ++ Marshal v }
        else ss
      let res := runHandler command ss1.store args
      ({ ss1 with store := res.1 }, some res.2)
    else (ss, some (Value.mkString []))

/-- The request loop of main over a sequence of decoded requests. -/
def liveRun (ss : SrvState) : List Value → SrvState
  | [] => ss
  | v :: vs => liveRun (liveStep ss v).1 vs

/-- The replay callback main passes to Aof.Read: index 0 of the array field
is read unconditionally (a Go panic when the array is empty, modelled as
none), the name is upper-cased and looked up, an unknown name is skipped,
and otherwise the handler runs for its effect on the store. -/
def replayStep (st : Store) (v : Value) : Option Store :=
  match v.array with
  | [] => none
  | first :: rest =>
      let command := toUpper first.bulk
      if knownCommand command then some (runHandler command st rest).1
      else some st

/-- The decode-and-replay loop of Aof.Read: read one value per iteration
with the rESP reader; io.EOF ends the loop successfully, any other reader
error aborts, and each decoded value is fed to the replay callback. -/
def aofReplay : Nat → Store → List Nat → Except RErr Store
  | 0, _, _ => .error .fuel
  | fuel + 1, st, s =>
      match readVal (s.length + 1) s with
      | (.error .eof, _) => .ok st
      | (.error e, _) => .error e
      | (.ok v, rest) =>
          match replayStep st v with
          | none => .error .idxOut
          | some st2 => aofReplay fuel st2 rest

/-- Aof.Read from the start of the persisted log: one iteration per byte of
log is always enough budget, since every successful decode consumes at
least the marker byte. -/
def aofRead (s : List Nat) (st : Store) : Except RErr Store :=
  aofReplay (s.length + 1) st s

/-! ## The request fragment of the Value model and the round-trip

Well-formed request values: non-null bulk strings and arrays of well-formed
values, with every inactive field at its Go zero value and every length
within a signed 64-bit integer (automatic for any value a Go program can
hold). These are exactly the values both sides of the codec handle. -/

inductive Wf : Value → Prop where
  | bulk (b : GoStr) (hb : b.length ≤ 9223372036854775807) :
      Wf (.mk "bulk" [] 0 b [])
  | arr (l : List Value) (hl : l.length ≤ 9223372036854775807)
      (h : ∀ v ∈ l, Wf v) : Wf (.mk "array" [] 0 [] l)

mutual

/-- Nesting depth of a value: the recursion depth the decoder needs. -/
def vdepth : Value → Nat
  | .mk _ _ _ _ arr => 1 + vdepthList arr

/-- Largest nesting depth of any element of a list of values. -/
def vdepthList : List Value → Nat
  | [] => 0
  | v :: vs => max (vdepth v) (vdepthList vs)

end

/-- The store transition a request value induces through the dispatch path
shared by the live loop and the replay callback. -/
def applyReq (st : Store) (v : Value) : Store :=
  (runHandler (toUpper ((v.array.headD Value.zero).bulk)) st (v.array.drop 1)).1

/-- A well-formed write request: a well-formed array whose first element
names SET or HSET after upper-casing. -/
def WfWrite (v : Value) : Prop :=
  Wf v ∧ v.typ = "array" ∧ v.array ≠ [] ∧
    (toUpper ((v.array.headD Value.zero).bulk) = gostr "SET" ∨
      toUpper ((v.array.headD Value.zero).bulk) = gostr "HSET")

/-- A sequence of HSET calls on one hash, through the handler itself. -/
def hsetMany (h : GoStr) (st : Store) (pairs : List (GoStr × GoStr)) : Store :=
  pairs.foldl
    (fun s p => (hset s [Value.mkBulk h, Value.mkBulk p.1, Value.mkBulk p.2]).1)
    st

/-- Undo the field/value flattening of hgetall: consecutive element pairs. -/
def pairsOf : List Value → List (GoStr × GoStr)
  | a :: b :: rest => (a.bulk, b.bulk) :: pairsOf rest
  | _ => []

/-! ## Lemmas about line reading -/

theorem readLineAux_spec (b : Nat) (rest : List Nat) :
    ∀ (pre : List Nat), 13 ∉ pre → ∀ (acc : List Nat), acc.getLast? ≠ some 13 →
      readLineAux acc (pre ++ 13 :: b :: rest) = (some (acc ++ pre), rest) := by
  intro pre
  induction pre with
  | nil =>
      intro _ acc hacc
      rw [List.nil_append]
      rw [readLineAux, if_neg hacc, readLineAux]
      rw [if_pos (by rw [List.getLast?_concat])]
      rw [List.dropLast_concat, List.append_nil]
  | cons p ps ih =>
      intro hmem acc hacc
      have hp : p ≠ 13 := fun h => hmem (h ▸ List.mem_cons_self p ps)
      rw [List.cons_append, readLineAux, if_neg hacc]
      rw [ih (fun h => hmem (List.mem_cons_of_mem p h)) (acc ++ [p])
        (by rw [List.getLast?_concat]; exact fun h => hp (by injection h))]
      rw [List.append_assoc, List.singleton_append]

theorem readLine_spec (pre : List Nat) (b : Nat) (rest : List Nat)
    (h : 13 ∉ pre) :
    readLine (pre ++ 13 :: b :: rest) = (some pre, rest) := by
  rw [readLine, readLineAux_spec b rest pre h [] (by simp), List.nil_append]

/-! ## Lemmas about decimal digits -/

theorem natDigs_digits (n : Nat) : ∀ d ∈ natDigs n, 48 ≤ d ∧ d ≤ 57 := by
  induction n using Nat.strong_induction_on with
  | _ n ih =>
      rw [natDigs]
      by_cases h : n < 10
      · rw [if_pos h]
        intro d hd
        rw [List.mem_singleton] at hd
        omega
      · rw [if_neg h]
        intro d hd
        rcases List.mem_append.mp hd with h1 | h2
        · exact ih (n / 10) (Nat.div_lt_self (by omega) (by omega)) d h1
        · rw [List.mem_singleton] at h2
          have := Nat.mod_lt n (show 0 < 10 by omega)
          omega

theorem natDigs_ne_nil (n : Nat) : natDigs n ≠ [] := by
  rw [natDigs]
  by_cases h : n < 10
  · rw [if_pos h]; simp
  · rw [if_neg h]; simp

theorem parseDigitsAux_append (l1 l2 : List Nat) :
    ∀ acc, parseDigitsAux acc (l1 ++ l2) =
      match parseDigitsAux acc l1 with
      | none => none
      | some a => parseDigitsAux a l2 := by
  induction l1 with
  | nil => intro acc; simp [parseDigitsAux]
  | cons b bs ih =>
      intro acc
      rw [List.cons_append, parseDigitsAux, parseDigitsAux]
      by_cases h : 48 ≤ b ∧ b ≤ 57
      · rw [if_pos h, if_pos h, ih]
      · rw [if_neg h, if_neg h]

theorem parseDigitsAux_natDigs (n : Nat) :
    ∀ acc, parseDigitsAux acc (natDigs n) =
      some (acc * 10 ^ (natDigs n).length + n) := by
  induction n using Nat.strong_induction_on with
  | _ n ih =>
      intro acc
      by_cases h : n < 10
      · rw [natDigs, if_pos h]
        simp only [parseDigitsAux]
        rw [if_pos (by omega : 48 ≤ 48 + n ∧ 48 + n ≤ 57)]
        simp only [List.length_singleton, pow_one]
        congr 1
        omega
      · rw [natDigs, if_neg h, parseDigitsAux_append]
        rw [ih (n / 10) (Nat.div_lt_self (by omega) (by omega)) acc]
        have hm := Nat.mod_lt n (show 0 < 10 by omega)
        simp only [parseDigitsAux]
        rw [if_pos (by omega : 48 ≤ 48 + n % 10 ∧ 48 + n % 10 ≤ 57)]
        rw [List.length_append, List.length_singleton, pow_succ]
        congr 1
        have h1 : 48 + n % 10 - 48 = n % 10 := by omega
        rw [h1]
        have h2 : n / 10 * 10 + n % 10 = n := by omega
        calc (acc * 10 ^ (natDigs (n / 10)).length + n / 10) * 10 + n % 10
            = acc * (10 ^ (natDigs (n / 10)).length * 10) +
                (n / 10 * 10 + n % 10) := by ring
          _ = acc * (10 ^ (natDigs (n / 10)).length * 10) + n := by rw [h2]

theorem parseDigits_natDigs (n : Nat) : parseDigits (natDigs n) = some n := by
  have h := parseDigitsAux_natDigs n 0
  rcases hc : natDigs n with _ | ⟨d, ds⟩
  · exact absurd hc (natDigs_ne_nil n)
  · rw [parseDigits]
    rw [hc] at h
    simpa using h

theorem parseGoInt_natDigs (n : Nat) (h : n ≤ 9223372036854775807) :
    parseGoInt (natDigs n) = some (n : Int) := by
  rcases hc : natDigs n with _ | ⟨d, ds⟩
  · exact absurd hc (natDigs_ne_nil n)
  · have hd : 48 ≤ d ∧ d ≤ 57 := by
      apply natDigs_digits n
      rw [hc]; exact List.mem_cons_self d ds
    rw [parseGoInt]
    rw [if_neg (by omega), if_neg (by omega), ← hc, parseDigits_natDigs]
    simp [h]

theorem natDigs_no_cr (n : Nat) : 13 ∉ natDigs n := by
  intro h
  have := natDigs_digits n 13 h
  omega

theorem readInteger_natDigs (n : Nat) (h : n ≤ 9223372036854775807)
    (rest : List Nat) :
    readInteger (natDigs n ++ 13 :: 10 :: rest) = (.ok (n : Int), rest) := by
  rw [readInteger, readLine_spec _ 10 rest (natDigs_no_cr n)]
  simp only [parseGoInt_natDigs n h]

theorem readInteger_negDigs (k : Nat) (h : k ≤ 9223372036854775808)
    (rest : List Nat) :
    readInteger ((45 :: natDigs k) ++ 13 :: 10 :: rest) =
      (.ok (-(k : Int)), rest) := by
  have hn : 13 ∉ 45 :: natDigs k := by
    intro hmem
    rcases List.mem_cons.mp hmem with h1 | h2
    · omega
    · exact natDigs_no_cr k h2
  rw [readInteger, readLine_spec _ 10 rest hn]
  simp [parseGoInt, parseDigits_natDigs, h]

theorem vdepth_pos (v : Value) : 1 ≤ vdepth v := by
  cases v with
  | mk t s n b a => rw [vdepth]; omega

theorem vdepth_le_of_mem {v : Value} {l : List Value} (h : v ∈ l) :
    vdepth v ≤ vdepthList l := by
  induction l with
  | nil => cases h
  | cons w ws ih =>
      rw [vdepthList]
      rcases List.mem_cons.mp h with h1 | h2
      · rw [h1]; exact le_max_left _ _
      · exact le_trans (ih h2) (le_max_right _ _)

theorem marshal_bulk_eq (b : GoStr) :
    Marshal (.mk "bulk" [] 0 b []) =
      36 :: natDigs b.length ++ [13, 10] ++ b ++ [13, 10] := by
  rw [Marshal]
  rw [if_neg (by decide), if_pos rfl]

theorem marshal_array_eq (l : List Value) :
    Marshal (.mk "array" [] 0 [] l) =
      42 :: natDigs l.length ++ [13, 10] ++ marshalElems l := by
  rw [Marshal, if_pos rfl]

theorem readVal_succ (fuel : Nat) (s : List Nat) :
    readVal (fuel + 1) s = readF (readVal fuel) s := rfl

theorem loopElems_marshal
    (rv : List Nat → (Except RErr Value) × List Nat) (l : List Value)
    (hrv : ∀ v ∈ l, ∀ r, rv (Marshal v ++ r) = (.ok v, r)) :
    ∀ (acc : List Value) (rest : List Nat),
      loopElems rv l.length acc (marshalElems l ++ rest) =
        (.ok (Value.mkArray (acc ++ l)), rest) := by
  induction l with
  | nil =>
      intro acc rest
      rw [marshalElems, List.nil_append, List.length_nil, loopElems,
        List.append_nil]
  | cons v vs ih =>
      intro acc rest
      rw [marshalElems, List.length_cons]
      rw [List.append_assoc]
      rw [loopElems]
      rw [hrv v (List.mem_cons_self v vs) (marshalElems vs ++ rest)]
      show loopElems rv vs.length (acc ++ [v]) (marshalElems vs ++ rest) =
        (.ok (Value.mkArray (acc ++ v :: vs)), rest)
      rw [ih (fun w hw r => hrv w (List.mem_cons_of_mem v hw) r) (acc ++ [v]) rest]
      rw [List.append_assoc, List.singleton_append]

theorem readVal_marshal :
    ∀ (fuel : Nat) (v : Value), Wf v → vdepth v ≤ fuel →
      ∀ (rest : List Nat), readVal fuel (Marshal v ++ rest) = (.ok v, rest) := by
  intro fuel
  induction fuel with
  | zero =>
      intro v hv hd rest
      exact absurd (le_trans (vdepth_pos v) hd) (by omega)
  | succ f ih =>
      intro v hv hd rest
      cases hv with
      | bulk b hb =>
          rw [marshal_bulk_eq, readVal_succ]
          rw [show (36 :: natDigs b.length ++ [13, 10] ++ b ++ [13, 10]) ++ rest =
            36 :: (natDigs b.length ++ 13 :: 10 :: (b ++ 13 :: 10 :: rest)) by
              simp]
          rw [readF, if_neg (by omega), if_pos rfl]
          rw [readBulk, readInteger_natDigs b.length hb]
          have hneg : ¬((b.length : Int) < 0) := by omega
          have hline : readLine (13 :: 10 :: rest) = (some [], rest) :=
            readLine_spec [] 10 rest (by simp)
          have hrep : b.length - (b ++ 13 :: 10 :: rest).length = 0 := by simp
          simp [hneg, hrep, hline, Value.mkBulk, List.take_left, List.drop_left]
      | arr l hl hmem =>
          rw [marshal_array_eq, readVal_succ]
          rw [show (42 :: natDigs l.length ++ [13, 10] ++ marshalElems l) ++ rest =
            42 :: (natDigs l.length ++ 13 :: 10 :: (marshalElems l ++ rest)) by
              simp]
          rw [readF, if_pos rfl]
          rw [readArrayF, readInteger_natDigs l.length hl]
          simp only [Int.toNat_natCast]
          have helem : ∀ w ∈ l, ∀ r, readVal f (Marshal w ++ r) = (.ok w, r) := by
            intro w hw r
            apply ih w (hmem w hw)
            have h1 : vdepth w ≤ vdepthList l := vdepth_le_of_mem hw
            have h2 : vdepth (Value.mk "array" [] 0 [] l) = 1 + vdepthList l := by
              rw [vdepth]
            omega
          rw [loopElems_marshal (readVal f) l helem [] rest, List.nil_append]
          rfl

theorem vdepthList_le_marshalElems (l : List Value)
    (hw : ∀ w ∈ l, vdepth w ≤ (Marshal w).length) :
    vdepthList l ≤ (marshalElems l).length := by
  induction l with
  | nil => rw [vdepthList, marshalElems]; simp
  | cons w ws ih =>
      rw [vdepthList, marshalElems, List.length_append]
      have h1 := hw w (List.mem_cons_self w ws)
      have h2 := ih (fun x hx => hw x (List.mem_cons_of_mem w hx))
      exact max_le (h1.trans (Nat.le_add_right _ _))
        (h2.trans (Nat.le_add_left _ _))

theorem vdepth_le_marshal_aux :
    ∀ (fuel : Nat) (v : Value), Wf v → vdepth v ≤ fuel →
      vdepth v ≤ (Marshal v).length := by
  intro fuel
  induction fuel with
  | zero =>
      intro v hv hd
      exact absurd (le_trans (vdepth_pos v) hd) (by omega)
  | succ f ih =>
      intro v hv hd
      cases hv with
      | bulk b hb =>
          rw [marshal_bulk_eq]
          rw [show vdepth (Value.mk "bulk" [] 0 b []) = 1 by
            rw [vdepth, vdepthList]]
          simp
      | arr l hl hmem =>
          have hdep : vdepth (Value.mk "array" [] 0 [] l) = 1 + vdepthList l := by
            rw [vdepth]
          rw [hdep] at hd ⊢
          have hlist : vdepthList l ≤ (marshalElems l).length := by
            apply vdepthList_le_marshalElems
            intro w hwmem
            apply ih w (hmem w hwmem)
            have h1 := vdepth_le_of_mem hwmem
            omega
          rw [marshal_array_eq]
          simp only [List.length_cons, List.length_append]
          omega

/-- The marshalled form of a well-formed value is at least as long as the
value is deep: every level contributes at least its marker byte. -/
theorem vdepth_le_marshal (v : Value) (hv : Wf v) :
    vdepth v ≤ (Marshal v).length :=
  vdepth_le_marshal_aux (vdepth v) v hv (le_refl _)

/-- Round-trip on the stream level: decoding the marshalled bytes of a
well-formed value consumes exactly those bytes and returns the value. -/
theorem Read_marshal (v : Value) (hv : Wf v) (rest : List Nat) :
    Read (Marshal v ++ rest) = (.ok v, rest) := by
  rw [Read]
  apply readVal_marshal _ v hv _ rest
  have h1 := vdepth_le_marshal v hv
  have h2 : (Marshal v).length ≤ (Marshal v ++ rest).length := by
    rw [List.length_append]; omega
  omega

/-! ## Lemmas about the association-list maps -/

theorem alGet_alSet_self {α β : Type} [DecidableEq α]
    (m : List (α × β)) (k : α) (v : β) : alGet (alSet m k v) k = some v := by
  induction m with
  | nil => rw [alSet, alGet, if_pos rfl]
  | cons p rest ih =>
      obtain ⟨k1, v1⟩ := p
      rw [alSet]
      by_cases h : k1 = k
      · rw [if_pos h, alGet, if_pos rfl]
      · rw [if_neg h, alGet, if_neg h, ih]

theorem alSet_of_not_mem {α β : Type} [DecidableEq α]
    (m : List (α × β)) (k : α) (v : β) (h : k ∉ m.map Prod.fst) :
    alSet m k v = m ++ [(k, v)] := by
  induction m with
  | nil => rw [alSet, List.nil_append]
  | cons p rest ih =>
      obtain ⟨k1, v1⟩ := p
      have h1 : k1 ≠ k := by
        intro he
        exact h (by rw [List.map_cons, he]; exact List.mem_cons_self _ _)
      rw [alSet, if_neg h1, List.cons_append]
      rw [ih (fun hm => h (by rw [List.map_cons]; exact List.mem_cons_of_mem _ hm))]

/-! ## Dispatch lemmas -/

theorem knownCommand_SET : knownCommand (gostr "SET") = true := by decide

theorem knownCommand_HSET : knownCommand (gostr "HSET") = true := by decide

theorem runHandler_SET (st : Store) (args : List Value) :
    runHandler (gostr "SET") st args = set st args := by
  rw [runHandler, if_neg (by decide), if_pos rfl]

theorem runHandler_HSET (st : Store) (args : List Value) :
    runHandler (gostr "HSET") st args = hset st args := by
  rw [runHandler, if_neg (by decide), if_neg (by decide), if_neg (by decide),
    if_pos rfl]

theorem liveStep_write (ss : SrvState) (v : Value) (htyp : v.typ = "array")
    (hne : v.array ≠ [])
    (hcmd : toUpper ((v.array.headD Value.zero).bulk) = gostr "SET" ∨
      toUpper ((v.array.headD Value.zero).bulk) = gostr "HSET") :
    liveStep ss v =
      (⟨applyReq ss.store v, ss.log ++ Marshal v⟩,
        some (runHandler (toUpper ((v.array.headD Value.zero).bulk)) ss.store
          (v.array.drop 1)).2) := by
  have hlen : v.array.length ≠ 0 := fun h0 => hne (List.length_eq_zero.mp h0)
  have hknown : knownCommand (toUpper ((v.array.headD Value.zero).bulk)) = true := by
    rcases hcmd with h1 | h1 <;> rw [h1]
    · exact knownCommand_SET
    · exact knownCommand_HSET
  rw [liveStep, if_neg (by rw [htyp]; simp), if_neg hlen, if_pos hknown,
    if_pos hcmd]
  rfl

theorem replayStep_write (st : Store) (v : Value) (hne : v.array ≠ [])
    (hcmd : toUpper ((v.array.headD Value.zero).bulk) = gostr "SET" ∨
      toUpper ((v.array.headD Value.zero).bulk) = gostr "HSET") :
    replayStep st v = some (applyReq st v) := by
  rcases hl : v.array with _ | ⟨first, rest⟩
  · exact absurd hl hne
  · have hknown : knownCommand (toUpper first.bulk) = true := by
      rcases hcmd with h1 | h1 <;> rw [hl] at h1 <;>
        simp only [List.headD_cons] at h1 <;> rw [h1]
      · exact knownCommand_SET
      · exact knownCommand_HSET
    rw [replayStep, hl]
    simp only [hknown, if_pos]
    rw [applyReq, hl]
    simp

/-! ## The live run and the replay produce the same store -/

theorem liveRun_write (reqs : List Value) :
    (∀ v ∈ reqs, WfWrite v) → ∀ (st : Store) (log : List Nat),
      liveRun ⟨st, log⟩ reqs =
        ⟨reqs.foldl applyReq st, log ++ (reqs.map Marshal).flatten⟩ := by
  induction reqs with
  | nil => intro _ st log; rw [liveRun, List.map_nil, List.flatten_nil,
      List.append_nil, List.foldl_nil]
  | cons v vs ih =>
      intro h st log
      have hv := h v (List.mem_cons_self v vs)
      rw [liveRun, liveStep_write ⟨st, log⟩ v hv.2.1 hv.2.2.1 hv.2.2.2]
      rw [ih (fun w hw => h w (List.mem_cons_of_mem v hw)) _ _]
      rw [List.foldl_cons, List.map_cons, List.flatten_cons, List.append_assoc]

theorem aofReplay_write (reqs : List Value) :
    (∀ v ∈ reqs, WfWrite v) → ∀ (fuel : Nat) (st : Store),
      reqs.length < fuel →
      aofReplay fuel st ((reqs.map Marshal).flatten) =
        .ok (reqs.foldl applyReq st) := by
  induction reqs with
  | nil =>
      intro _ fuel st hf
      rcases fuel with _ | f
      · omega
      · rw [List.map_nil, List.flatten_nil, aofReplay, List.foldl_nil]
        rfl
  | cons v vs ih =>
      intro h fuel st hf
      rcases fuel with _ | f
      · omega
      · rw [List.map_cons, List.flatten_cons, aofReplay]
        have hwf : WfWrite v := h v (List.mem_cons_self v vs)
        have hread : readVal ((Marshal v ++ (vs.map Marshal).flatten).length + 1)
            (Marshal v ++ (vs.map Marshal).flatten) =
            (.ok v, (vs.map Marshal).flatten) := by
          apply readVal_marshal _ v hwf.1 _ _
          have h1 := vdepth_le_marshal v hwf.1
          have h2 : (Marshal v).length ≤
              (Marshal v ++ (vs.map Marshal).flatten).length := by
            rw [List.length_append]; omega
          omega
        rw [hread]
        show (match replayStep st v with
          | none => Except.error RErr.idxOut
          | some st2 => aofReplay f st2 ((vs.map Marshal).flatten)) = _
        rw [replayStep_write st v hwf.2.2.1 hwf.2.2.2]
        show aofReplay f (applyReq st v) ((vs.map Marshal).flatten) = _
        rw [ih (fun w hw => h w (List.mem_cons_of_mem v hw)) f (applyReq st v)
          (by rw [List.length_cons] at hf; omega)]
        rw [List.foldl_cons]

theorem length_le_join_marshal (reqs : List Value)
    (h : ∀ v ∈ reqs, 1 ≤ (Marshal v).length) :
    reqs.length ≤ ((reqs.map Marshal).flatten).length := by
  induction reqs with
  | nil => simp
  | cons v vs ih =>
      rw [List.map_cons, List.flatten_cons, List.length_cons, List.length_append]
      have h1 := h v (List.mem_cons_self v vs)
      have h2 := ih (fun w hw => h w (List.mem_cons_of_mem v hw))
      omega

/-! ## Hash-handler lemmas -/

theorem flattenPairs_length (l : List (GoStr × GoStr)) :
    (flattenPairs l).length = 2 * l.length := by
  induction l with
  | nil => rfl
  | cons p rest ih =>
      obtain ⟨k, v⟩ := p
      rw [flattenPairs, List.length_cons, List.length_cons, ih,
        List.length_cons]
      omega

theorem pairsOf_flattenPairs (l : List (GoStr × GoStr)) :
    pairsOf (flattenPairs l) = l := by
  induction l with
  | nil => rfl
  | cons p rest ih =>
      obtain ⟨k, v⟩ := p
      rw [flattenPairs, pairsOf, ih]
      rfl

theorem hset_hsets (st : Store) (h f v : GoStr) :
    ((hset st [Value.mkBulk h, Value.mkBulk f, Value.mkBulk v]).1).hsets =
      alSet st.hsets h (alSet ((alGet st.hsets h).getD []) f v) := by
  rw [hset, if_neg (by simp)]
  rfl

theorem hset_sets (st : Store) (h f v : GoStr) :
    ((hset st [Value.mkBulk h, Value.mkBulk f, Value.mkBulk v]).1).sets =
      st.sets := by
  rw [hset, if_neg (by simp)]

theorem hsetMany_spec (h : GoStr) :
    ∀ (pairs : List (GoStr × GoStr)) (st : Store) (l : List (GoStr × GoStr)),
      alGet st.hsets h = some l →
      (pairs.map Prod.fst).Nodup →
      (∀ p ∈ pairs, p.1 ∉ l.map Prod.fst) →
      alGet (hsetMany h st pairs).hsets h = some (l ++ pairs) := by
  intro pairs
  induction pairs with
  | nil =>
      intro st l hget _ _
      rw [hsetMany, List.foldl_nil, hget, List.append_nil]
  | cons p ps ih =>
      intro st l hget hnodup hdisj
      obtain ⟨f, v⟩ := p
      rw [hsetMany, List.foldl_cons]
      have hstep : alGet ((hset st
          [Value.mkBulk h, Value.mkBulk f, Value.mkBulk v]).1).hsets h =
          some (l ++ [(f, v)]) := by
        rw [hset_hsets, hget]
        rw [show (some l).getD ([] : List (GoStr × GoStr)) = l from rfl]
        rw [alSet_of_not_mem l f v
          (hdisj (f, v) (List.mem_cons_self _ _))]
        exact alGet_alSet_self _ _ _
      have hnodup2 : (ps.map Prod.fst).Nodup := by
        rw [List.map_cons] at hnodup
        exact (List.nodup_cons.mp hnodup).2
      have hf_not : f ∉ ps.map Prod.fst := by
        rw [List.map_cons] at hnodup
        exact (List.nodup_cons.mp hnodup).1
      have hdisj2 : ∀ q ∈ ps, q.1 ∉ (l ++ [(f, v)]).map Prod.fst := by
        intro q hq hmem
        rw [List.map_append] at hmem
        rcases List.mem_append.mp hmem with h1 | h2
        · exact hdisj q (List.mem_cons_of_mem _ hq) h1
        · simp only [List.map_cons, List.map_nil, List.mem_singleton] at h2
          exact hf_not (h2 ▸ List.mem_map_of_mem Prod.fst hq)
      have hrec := ih _ _ hstep hnodup2 hdisj2
      show alGet (hsetMany h
        ((hset st [Value.mkBulk h, Value.mkBulk f, Value.mkBulk v]).1) ps).hsets
          h = some (l ++ (f, v) :: ps)
      rw [hrec, List.append_assoc, List.singleton_append]

/-! ## Small computation lemmas -/

theorem bulk_mkBulk (b : GoStr) : (Value.mkBulk b).bulk = b := rfl

theorem readF_array (rv : List Nat → (Except RErr Value) × List Nat)
    (s : List Nat) : readF rv (42 :: s) = readArrayF rv s := rfl

theorem readF_bulk (rv : List Nat → (Except RErr Value) × List Nat)
    (s : List Nat) : readF rv (36 :: s) = readBulk s := rfl

/-! ## Claim theorems -/

/-- Claim C1, counterexample: the claim quantifies over every variant, but
encoding the simple string OK yields the bytes of +OK followed by CRLF, and
decoding those bytes succeeds with the zero Value — the unknown-marker
branch of rESP.Read — whose variant tag is empty rather than the
simple-string tag of the input. The round-trip therefore fails on the
simple-string (and likewise error and integer) variants. -/
theorem C1_roundtrip_counterexample :
    Marshal (Value.mkString (gostr "OK")) = gostr "+OK\r\n" ∧
    (Read (gostr "+OK\r\n")).1 = Except.ok Value.zero ∧
    Value.zero.typ ≠ (Value.mkString (gostr "OK")).typ := by
  refine ⟨?_, rfl, by decide⟩
  simp [Marshal, Value.mkString, gostr]

/-- Claim C1, amended: decoding the bytes produced by encoding a value
reproduces the value exactly — for every finite value in the request
fragment, that is a non-null bulk string or an array of such values (the
only variants the decoder accepts at all); the simple-string, error and
integer variants do not round-trip, as the counterexample shows. -/
theorem C1_roundtrip_amended (v : Value) (h : Wf v) :
    Read (Marshal v) = (Except.ok v, []) := by
  have h2 := Read_marshal v h []
  rwa [List.append_nil] at h2

/-- Witness for the amended C1 at the one-element array holding the bulk
string SET. -/
theorem C1_roundtrip_witness :
    Read (Marshal (Value.mkArray [Value.mkBulk (gostr "SET")])) =
      (Except.ok (Value.mkArray [Value.mkBulk (gostr "SET")]), []) :=
  C1_roundtrip_amended _ (Wf.arr _ (by decide)
    (by
      intro w hw
      rw [List.mem_singleton] at hw
      rw [hw]
      exact Wf.bulk _ (by decide)))

/-- Claim C3: running the SET handler with arguments k, v and then the GET
handler with argument k on the resulting store returns the bulk value v,
for all non-empty k and v; and on any store whose flat map has no entry for
k, GET returns the null value (the variant the encoder emits as the null
bulk $-1 CRLF), not an error. -/
theorem C3_set_get :
    (∀ (st : Store) (k v : GoStr), k ≠ [] → v ≠ [] →
      (get (set st [Value.mkBulk k, Value.mkBulk v]).1 [Value.mkBulk k]).2 =
        Value.mkBulk v) ∧
    (∀ (st : Store) (k : GoStr), alGet st.sets k = none →
      (get st [Value.mkBulk k]).2 = Value.mkNull ∧
        ((get st [Value.mkBulk k]).2).typ ≠ "error") := by
  constructor
  · intro st k v _ _
    simp [set, get, Value.mkBulk, Value.bulk, alGet_alSet_self]
  · intro st k hnone
    have hg : (get st [Value.mkBulk k]).2 = Value.mkNull := by
      simp [get, Value.mkBulk, Value.bulk, hnone]
    exact ⟨hg, by rw [hg]; decide⟩

/-- Witness for C3 at k, v and a key of an empty store. -/
theorem C3_set_get_witness :
    (get (set Store.empty [Value.mkBulk (gostr "k"), Value.mkBulk (gostr "v")]).1
        [Value.mkBulk (gostr "k")]).2 = Value.mkBulk (gostr "v") ∧
    (get Store.empty [Value.mkBulk (gostr "n")]).2 = Value.mkNull :=
  ⟨C3_set_get.1 Store.empty (gostr "k") (gostr "v") (by decide) (by decide),
    (C3_set_get.2 Store.empty (gostr "n") rfl).1⟩

/-- Claim C4, counterexample: for the unknown command FOOP the loop answers
Value{typ: "string", str: ""} — a simple-string variant, not an
Error-variant as claimed — while the store and the log are untouched. -/
theorem C4_unknown_counterexample :
    liveStep ⟨Store.empty, []⟩ (Value.mkArray [Value.mkBulk (gostr "FOOP")]) =
      (⟨Store.empty, []⟩, some (Value.mkString [])) ∧
    (Value.mkString []).typ ≠ "error" := ⟨rfl, by decide⟩

/-- Claim C4, amended: for every request whose command name is not in the
handler mapping, the store and the log are unchanged and no entry is
appended, but the response written to the client is the empty simple-string
value, not an Error-variant. -/
theorem C4_unknown_amended (ss : SrvState) (v : Value)
    (h1 : v.typ = "array") (h2 : v.array ≠ [])
    (h3 : knownCommand (toUpper ((v.array.headD Value.zero).bulk)) = false) :
    liveStep ss v = (ss, some (Value.mkString [])) ∧
    (Value.mkString []).typ ≠ "error" := by
  constructor
  · rw [liveStep, if_neg (by rw [h1]; simp),
      if_neg (fun h0 => h2 (List.length_eq_zero.mp h0))]
    simp only [h3]
    simp
  · decide

/-- Witness for the amended C4 at the FOOP request on an empty server. -/
theorem C4_unknown_witness :
    liveStep ⟨Store.empty, []⟩ (Value.mkArray [Value.mkBulk (gostr "FOOP")]) =
      (⟨Store.empty, []⟩, some (Value.mkString [])) ∧
    (Value.mkString []).typ ≠ "error" :=
  C4_unknown_amended ⟨Store.empty, []⟩
    (Value.mkArray [Value.mkBulk (gostr "FOOP")]) rfl
    (by simp [Value.mkArray, Value.array]) (by decide)

/-- Claim C5: each of the handlers set, get, hset, hget and hgetall, when
its argument list length differs from the expected count (2, 1, 3, 2 and 1
respectively), returns an Error-variant value and leaves both store maps
exactly as they were. -/
theorem C5_arity_errors :
    (∀ (st : Store) (args : List Value), args.length ≠ 2 →
      (set st args).1 = st ∧ ((set st args).2).typ = "error") ∧
    (∀ (st : Store) (args : List Value), args.length ≠ 1 →
      (get st args).1 = st ∧ ((get st args).2).typ = "error") ∧
    (∀ (st : Store) (args : List Value), args.length ≠ 3 →
      (hset st args).1 = st ∧ ((hset st args).2).typ = "error") ∧
    (∀ (st : Store) (args : List Value), args.length ≠ 2 →
      (hget st args).1 = st ∧ ((hget st args).2).typ = "error") ∧
    (∀ (st : Store) (args : List Value), args.length ≠ 1 →
      (hgetall st args).1 = st ∧ ((hgetall st args).2).typ = "error") := by
  refine ⟨?_, ?_, ?_, ?_, ?_⟩
  · intro st args h
    rw [set, if_pos h]
    exact ⟨rfl, rfl⟩
  · intro st args h
    rw [get, if_pos h]
    exact ⟨rfl, rfl⟩
  · intro st args h
    rw [hset, if_pos h]
    exact ⟨rfl, rfl⟩
  · intro st args h
    rw [hget, if_pos h]
    exact ⟨rfl, rfl⟩
  · intro st args h
    rw [hgetall, if_pos h]
    exact ⟨rfl, rfl⟩

/-- Witness for C5: all five handlers on the empty argument list. -/
theorem C5_arity_witness :
    ((set Store.empty []).1 = Store.empty ∧
      ((set Store.empty []).2).typ = "error") ∧
    ((get Store.empty []).1 = Store.empty ∧
      ((get Store.empty []).2).typ = "error") ∧
    ((hset Store.empty []).1 = Store.empty ∧
      ((hset Store.empty []).2).typ = "error") ∧
    ((hget Store.empty []).1 = Store.empty ∧
      ((hget Store.empty []).2).typ = "error") ∧
    ((hgetall Store.empty []).1 = Store.empty ∧
      ((hgetall Store.empty []).2).typ = "error") :=
  ⟨C5_arity_errors.1 Store.empty [] (by decide),
    C5_arity_errors.2.1 Store.empty [] (by decide),
    C5_arity_errors.2.2.1 Store.empty [] (by decide),
    C5_arity_errors.2.2.2.1 Store.empty [] (by decide),
    C5_arity_errors.2.2.2.2 Store.empty [] (by decide)⟩

/-- Claim C2: applying a sequence of well-formed SET and HSET requests live
to an empty server produces, in its log, exactly the concatenated encodings
of the requests, and replaying that log through Aof.Read from an empty
store — decoding values sequentially and re-running each through the same
dispatch path — produces a store equal to the live one (hence equal flat
map, and per hash key the very same field/value pairs). -/
theorem C2_replay_equiv (reqs : List Value) (h : ∀ v ∈ reqs, WfWrite v) :
    (liveRun ⟨Store.empty, []⟩ reqs).log = (reqs.map Marshal).flatten ∧
    aofRead ((liveRun ⟨Store.empty, []⟩ reqs).log) Store.empty =
      Except.ok ((liveRun ⟨Store.empty, []⟩ reqs).store) := by
  have hrun := liveRun_write reqs h Store.empty []
  constructor
  · rw [hrun]
    simp
  · rw [hrun]
    show aofRead ([] ++ (reqs.map Marshal).flatten) Store.empty =
      Except.ok (reqs.foldl applyReq Store.empty)
    rw [List.nil_append]
    have hlen : reqs.length ≤ ((reqs.map Marshal).flatten).length := by
      apply length_le_join_marshal
      intro v hv
      have ha := vdepth_pos v
      have hb := vdepth_le_marshal v (h v hv).1
      omega
    exact aofReplay_write reqs h _ Store.empty (by omega)

/-- Witness for C2 at the single request SET k v. -/
theorem C2_replay_witness :
    (liveRun ⟨Store.empty, []⟩ [Value.mkArray [Value.mkBulk (gostr "SET"),
        Value.mkBulk (gostr "k"), Value.mkBulk (gostr "v")]]).log =
      (([Value.mkArray [Value.mkBulk (gostr "SET"), Value.mkBulk (gostr "k"),
        Value.mkBulk (gostr "v")]]).map Marshal).flatten ∧
    aofRead ((liveRun ⟨Store.empty, []⟩ [Value.mkArray
        [Value.mkBulk (gostr "SET"), Value.mkBulk (gostr "k"),
          Value.mkBulk (gostr "v")]]).log) Store.empty =
      Except.ok ((liveRun ⟨Store.empty, []⟩ [Value.mkArray
        [Value.mkBulk (gostr "SET"), Value.mkBulk (gostr "k"),
          Value.mkBulk (gostr "v")]]).store) :=
  C2_replay_equiv _ (by
    intro w hw
    rw [List.mem_singleton] at hw
    subst hw
    refine ⟨?_, rfl, ?_, Or.inl (by decide)⟩
    · refine Wf.arr _ (by decide) ?_
      intro u hu
      simp only [List.mem_cons, List.not_mem_nil, or_false] at hu
      rcases hu with rfl | rfl | rfl
      · exact Wf.bulk _ (by decide)
      · exact Wf.bulk _ (by decide)
      · exact Wf.bulk _ (by decide)
    · simp [Value.mkArray, Value.array])

/-- Claim C6, counterexample: on the stream starting with the integer
marker, a byte that is neither the array marker nor the bulk marker,
rESP.Read returns a successful result carrying the zero Value — not a
ProtocolError or any other failure. -/
theorem C6_marker_counterexample :
    (Read (gostr ":1000\r\n")).1 = Except.ok Value.zero := rfl

/-- Claim C6, amended: for every input stream whose first byte is any
marker other than the array marker 42 and the bulk marker 36, rESP.Read
prints a diagnostic, consumes only that byte and returns the zero Value
with a nil error; it does not produce a failure result. -/
theorem C6_marker_amended (b : Nat) (s : List Nat) (h1 : b ≠ 42)
    (h2 : b ≠ 36) : Read (b :: s) = (Except.ok Value.zero, s) := by
  rw [Read]
  rw [show (b :: s).length + 1 = s.length + 1 + 1 from by simp]
  rw [readVal_succ, readF, if_neg h1, if_neg h2]

/-- Witness for the amended C6 at the simple-string marker 43. -/
theorem C6_marker_witness :
    Read (43 :: gostr "OK\r\n") = (Except.ok Value.zero, gostr "OK\r\n") :=
  C6_marker_amended 43 (gostr "OK\r\n") (by decide) (by decide)

/-- Claim C7, counterexample: on the stream encoding a bulk string of
length -1 — the very bytes the systems own encoder emits for a null bulk —
the decoder does not terminate normally with a null value: Go panics in
make with a negative length, modelled as the negLen failure. -/
theorem C7_negative_length_counterexample :
    (Read (gostr "$-1\r\n")).1 = Except.error RErr.negLen := rfl

/-- Claim C7, amended: a negative decimal length field makes the array
branch terminate normally with an ordinary empty array value (type tag
array, zero elements, not a distinct null variant) reading no further
bytes, while the bulk branch does not return a null bulk string: it panics
in make with the negative length (the negLen failure of the model) and
reads no payload. -/
theorem C7_negative_length_amended (k : Nat) (rest : List Nat)
    (h1 : 1 ≤ k) (h2 : k ≤ 9223372036854775808) :
    Read (42 :: (45 :: (natDigs k ++ 13 :: 10 :: rest))) =
      (Except.ok (Value.mkArray []), rest) ∧
    Read (36 :: (45 :: (natDigs k ++ 13 :: 10 :: rest))) =
      (Except.error RErr.negLen, rest) := by
  have hsplit : (45 :: (natDigs k ++ 13 :: 10 :: rest)) =
      (45 :: natDigs k) ++ 13 :: 10 :: rest := by simp
  have hint := readInteger_negDigs k h2 rest
  have htoNat : (-(k : Int)).toNat = 0 := by omega
  have hneg : (-(k : Int)) < 0 := by omega
  constructor
  · rw [Read, readVal_succ, readF_array, readArrayF, hsplit, hint]
    simp only [htoNat]
    rw [loopElems]
  · rw [Read, readVal_succ, readF_bulk, readBulk, hsplit, hint]
    simp [hneg]

/-- Witness for the amended C7 at length -1 and an empty remainder. -/
theorem C7_negative_length_witness :
    Read (42 :: (45 :: (natDigs 1 ++ 13 :: 10 :: ([] : List Nat)))) =
      (Except.ok (Value.mkArray []), []) ∧
    Read (36 :: (45 :: (natDigs 1 ++ 13 :: 10 :: ([] : List Nat)))) =
      (Except.error RErr.negLen, []) :=
  C7_negative_length_amended 1 [] (by decide) (by decide)

/-- Claim C8, counterexample: the stream a CR X CR LF contains a CRLF pair
(its last two bytes), so the claim predicts the returned line a CR X with
everything up to that CRLF consumed; readLine instead stops at the first
CR even though the byte after it is X rather than LF, returning just a and
leaving CR LF unread. -/
theorem C8_readline_counterexample :
    readLine (gostr "a\rX\r\n") = (some (gostr "a"), gostr "\r\n") ∧
    (some (gostr "a"), gostr "\r\n") ≠
      (some (gostr "a\rX"), ([] : List Nat)) :=
  ⟨rfl, by decide⟩

/-- Claim C8, amended: readLine returns exactly the bytes preceding the
first CR byte that is followed by at least one further byte, stripping that
CR and the one byte after it — whatever that byte is — and consuming
nothing past it. When the byte after the first such CR is LF this is the
claimed first-CRLF behavior, but a CR followed by a non-LF byte terminates
the line as well. -/
theorem C8_readline_amended (pre : List Nat) (b : Nat) (rest : List Nat)
    (h : 13 ∉ pre) :
    readLine (pre ++ 13 :: b :: rest) = (some pre, rest) :=
  readLine_spec pre b rest h

/-- Witness for the amended C8 at the line ab CRLF followed by x. -/
theorem C8_readline_witness :
    readLine (gostr "ab" ++ 13 :: 10 :: gostr "x") =
      (some (gostr "ab"), gostr "x") :=
  C8_readline_amended (gostr "ab") 10 (gostr "x") (by decide)

/-- Claim C9: HSET h f v followed by HGET h f returns the bulk value v, on
any starting store; and after N HSET calls (N at least one — with no HSET
call the hash does not exist and HGETALL answers the null value by the
specifications own missing-hash rule) on a hash h absent from the store,
with pairwise-distinct fields, HGETALL h returns an Array-variant value of
exactly 2N bulk-string elements in which each field/value pair appears
exactly once with the field immediately followed by its matching value;
the pair order is the insertion order of the model map, and the claim
leaves the order unconstrained. -/
theorem C9_hash_ops :
    (∀ (st : Store) (h f v : GoStr),
      (hget (hset st [Value.mkBulk h, Value.mkBulk f, Value.mkBulk v]).1
        [Value.mkBulk h, Value.mkBulk f]).2 = Value.mkBulk v) ∧
    (∀ (st : Store) (h : GoStr) (pairs : List (GoStr × GoStr)),
      alGet st.hsets h = none → pairs ≠ [] → (pairs.map Prod.fst).Nodup →
      ((hgetall (hsetMany h st pairs) [Value.mkBulk h]).2).typ = "array" ∧
      ((hgetall (hsetMany h st pairs) [Value.mkBulk h]).2).array.length =
        2 * pairs.length ∧
      (pairsOf (((hgetall (hsetMany h st pairs) [Value.mkBulk h]).2).array)).Perm
        pairs) := by
  constructor
  · intro st h f v
    have hh := hset_hsets st h f v
    simp [hget, bulk_mkBulk, hh, alGet_alSet_self]
  · intro st h pairs hnone hne hnodup
    rcases pairs with _ | ⟨p, ps⟩
    · exact absurd rfl hne
    obtain ⟨f, v⟩ := p
    have h1 : alGet ((hset st
        [Value.mkBulk h, Value.mkBulk f, Value.mkBulk v]).1).hsets h =
        some [(f, v)] := by
      rw [hset_hsets, hnone]
      exact alGet_alSet_self _ _ _
    have hf_not : f ∉ ps.map Prod.fst := by
      rw [List.map_cons] at hnodup
      exact (List.nodup_cons.mp hnodup).1
    have hnodup2 : (ps.map Prod.fst).Nodup := by
      rw [List.map_cons] at hnodup
      exact (List.nodup_cons.mp hnodup).2
    have hdisj : ∀ q ∈ ps, q.1 ∉ ([(f, v)].map Prod.fst) := by
      intro q hq hmem
      simp only [List.map_cons, List.map_nil, List.mem_singleton] at hmem
      exact hf_not (hmem ▸ List.mem_map_of_mem Prod.fst hq)
    have hmany : alGet (hsetMany h st ((f, v) :: ps)).hsets h =
        some ((f, v) :: ps) := by
      have hrec := hsetMany_spec h ps
        ((hset st [Value.mkBulk h, Value.mkBulk f, Value.mkBulk v]).1)
        [(f, v)] h1 hnodup2 hdisj
      show alGet (hsetMany h
        ((hset st [Value.mkBulk h, Value.mkBulk f, Value.mkBulk v]).1)
          ps).hsets h = some ((f, v) :: ps)
      rw [hrec, List.singleton_append]
    have hga : (hgetall (hsetMany h st ((f, v) :: ps)) [Value.mkBulk h]).2 =
        Value.mkArray (flattenPairs ((f, v) :: ps)) := by
      simp [hgetall, bulk_mkBulk, hmany]
    rw [hga]
    refine ⟨rfl, ?_, ?_⟩
    · show (flattenPairs ((f, v) :: ps)).length = 2 * ((f, v) :: ps).length
      exact flattenPairs_length _
    · show (pairsOf (flattenPairs ((f, v) :: ps))).Perm ((f, v) :: ps)
      rw [pairsOf_flattenPairs]

/-- Witness for C9 at one HSET on an empty store. -/
theorem C9_hash_witness :
    (hget (hset Store.empty [Value.mkBulk (gostr "h"), Value.mkBulk (gostr "f"),
        Value.mkBulk (gostr "v")]).1
      [Value.mkBulk (gostr "h"), Value.mkBulk (gostr "f")]).2 =
      Value.mkBulk (gostr "v") ∧
    (((hgetall (hsetMany (gostr "h") Store.empty [(gostr "f", gostr "v")])
        [Value.mkBulk (gostr "h")]).2).typ = "array" ∧
      ((hgetall (hsetMany (gostr "h") Store.empty [(gostr "f", gostr "v")])
        [Value.mkBulk (gostr "h")]).2).array.length =
        2 * ([(gostr "f", gostr "v")] : List (GoStr × GoStr)).length ∧
      (pairsOf (((hgetall (hsetMany (gostr "h") Store.empty
        [(gostr "f", gostr "v")]) [Value.mkBulk (gostr "h")]).2).array)).Perm
        [(gostr "f", gostr "v")]) :=
  ⟨C9_hash_ops.1 Store.empty (gostr "h") (gostr "f") (gostr "v"),
    C9_hash_ops.2 Store.empty (gostr "h") [(gostr "f", gostr "v")] rfl
      (by simp) (by simp)⟩

/-- Claim C10: a live request whose command name upper-cases to SET or HSET
but whose argument count is wrong is nevertheless appended in full to the
durability log before dispatch; the handler then answers an Error-variant
value and mutates nothing, and replaying such a logged entry through the
replay callback likewise leaves the store unchanged. -/
theorem C10_bad_arity_logged (ss : SrvState) (v : Value)
    (h1 : v.typ = "array") (h2 : v.array ≠ [])
    (h3 : (toUpper ((v.array.headD Value.zero).bulk) = gostr "SET" ∧
        (v.array.drop 1).length ≠ 2) ∨
      (toUpper ((v.array.headD Value.zero).bulk) = gostr "HSET" ∧
        (v.array.drop 1).length ≠ 3)) :
    (liveStep ss v).1.log = ss.log ++ Marshal v ∧
    (liveStep ss v).1.store = ss.store ∧
    (((liveStep ss v).2.getD Value.zero).typ = "error") ∧
    replayStep ss.store v = some ss.store := by
  have hcmd : toUpper ((v.array.headD Value.zero).bulk) = gostr "SET" ∨
      toUpper ((v.array.headD Value.zero).bulk) = gostr "HSET" := by
    rcases h3 with ⟨hc, -⟩ | ⟨hc, -⟩
    · exact Or.inl hc
    · exact Or.inr hc
  have hls := liveStep_write ss v h1 h2 hcmd
  have hrs := replayStep_write ss.store v h2 hcmd
  refine ⟨by rw [hls], ?_, ?_, ?_⟩
  · rw [hls]
    show (runHandler (toUpper ((v.array.headD Value.zero).bulk)) ss.store
      (v.array.drop 1)).1 = ss.store
    rcases h3 with ⟨hc, hlen⟩ | ⟨hc, hlen⟩
    · rw [hc, runHandler_SET, set, if_pos hlen]
    · rw [hc, runHandler_HSET, hset, if_pos hlen]
  · rw [hls]
    show ((runHandler (toUpper ((v.array.headD Value.zero).bulk)) ss.store
      (v.array.drop 1)).2).typ = "error"
    rcases h3 with ⟨hc, hlen⟩ | ⟨hc, hlen⟩
    · rw [hc, runHandler_SET, set, if_pos hlen]
      rfl
    · rw [hc, runHandler_HSET, hset, if_pos hlen]
      rfl
  · rw [hrs]
    show some ((runHandler (toUpper ((v.array.headD Value.zero).bulk)) ss.store
      (v.array.drop 1)).1) = some ss.store
    rcases h3 with ⟨hc, hlen⟩ | ⟨hc, hlen⟩
    · rw [hc, runHandler_SET, set, if_pos hlen]
    · rw [hc, runHandler_HSET, hset, if_pos hlen]

/-- Witness for C10 at the zero-argument SET request on an empty server. -/
theorem C10_bad_arity_witness :
    (liveStep ⟨Store.empty, []⟩ (Value.mkArray [Value.mkBulk (gostr "SET")])).1.log
      = [] ++ Marshal (Value.mkArray [Value.mkBulk (gostr "SET")]) ∧
    (liveStep ⟨Store.empty, []⟩
      (Value.mkArray [Value.mkBulk (gostr "SET")])).1.store = Store.empty ∧
    (((liveStep ⟨Store.empty, []⟩
      (Value.mkArray [Value.mkBulk (gostr "SET")])).2.getD Value.zero).typ =
        "error") ∧
    replayStep Store.empty (Value.mkArray [Value.mkBulk (gostr "SET")]) =
      some Store.empty :=
  C10_bad_arity_logged ⟨Store.empty, []⟩
    (Value.mkArray [Value.mkBulk (gostr "SET")]) rfl
    (by simp [Value.mkArray, Value.array])
    (Or.inl ⟨by decide, by decide⟩)

end GoStore
